import Mathlib

/-!
Verification development for the Laum Project repository: identifier
generation, the report lifecycle guard, text normalization, the
language-switch path rewriter, admin querysets and localized date display.

Shallow embedding conventions: the Django ORM store is a list of records,
the random suffix source is a stream of strings indexed by attempt number,
and the unbounded retry loops are given explicit fuel. Parts of the
repository that are imported but whose source is absent (helpers.py,
managers.py, persian_editors.py, templatetags/web_extras.py, settings)
are modelled from the specification and marked as such in doc comments.
-/

namespace Laum

/-! ## Text normalizer (persian_editors.PersianEditors) -/

/-- Modelled from the spec: the named transformation passes of
`PersianEditors` (space normalization, digit normalization, Arabic to
Persian character mapping, punctuation-mark normalization). -/
inductive EditorPass where
  | space
  | number
  | arabic
  | punctuation_marks
deriving DecidableEq, Repr

/-- Modelled from the spec: canonical digit form used by the number pass,
mapping ASCII and Arabic-Indic digit glyphs to Persian-script digits. -/
def persianDigit (c : Char) : Char :=
  if c = '0' ∨ c = '٠' then '۰'
  else if c = '1' ∨ c = '١' then '۱'
  else if c = '2' ∨ c = '٢' then '۲'
  else if c = '3' ∨ c = '٣' then '۳'
  else if c = '4' ∨ c = '٤' then '۴'
  else if c = '5' ∨ c = '٥' then '۵'
  else if c = '6' ∨ c = '٦' then '۶'
  else if c = '7' ∨ c = '٧' then '۷'
  else if c = '8' ∨ c = '٨' then '۸'
  else if c = '9' ∨ c = '٩' then '۹'
  else c

/-- Modelled from the spec: the number pass normalizes numeric digit
glyphs to the canonical Persian form, character by character. -/
def numberPass (s : String) : String :=
  String.mk (s.data.map persianDigit)

/-- Modelled from the spec: the Arabic pass maps visually similar Arabic
script characters to their Persian script equivalents. -/
def arabicChar (c : Char) : Char :=
  if c = 'ي' then 'ی'
  else if c = 'ك' then 'ک'
  else if c = 'ة' then 'ه'
  else c

/-- Modelled from the spec: the Arabic pass applied to a whole string. -/
def arabicPass (s : String) : String :=
  String.mk (s.data.map arabicChar)

/-- Modelled from the spec: the punctuation pass normalizes
punctuation-mark forms to their Persian equivalents. -/
def punctChar (c : Char) : Char :=
  if c = ',' then '،'
  else if c = ';' then '؛'
  else if c = '?' then '؟'
  else c

/-- Modelled from the spec: the punctuation pass applied to a string. -/
def punctPass (s : String) : String :=
  String.mk (s.data.map punctChar)

/-- Collapse runs of spaces in a character list to a single space. -/
def collapseSpaces : List Char → List Char
  | [] => []
  | [c] => [c]
  | c :: d :: rest =>
      if c = ' ' ∧ d = ' ' then collapseSpaces (d :: rest)
      else c :: collapseSpaces (d :: rest)

/-- Drop leading spaces of a character list. -/
def dropLeadSpaces : List Char → List Char
  | [] => []
  | c :: rest => if c = ' ' then dropLeadSpaces rest else c :: rest

/-- Trim spaces from both ends after collapsing runs. -/
def tidySpaces (cs : List Char) : List Char :=
  (dropLeadSpaces (collapseSpaces cs).reverse).reverse |> dropLeadSpaces

/-- Modelled from the spec: the whitespace pass on a single line, mapping
tab characters to spaces, collapsing runs and trimming both ends. -/
def spaceLineChars (cs : List Char) : List Char :=
  tidySpaces (cs.map (fun c => if c = '\t' then ' ' else c))

/-- Split a character list at every occurrence of a separator character,
with the semantics of the Python `str.split` on a one-character
separator: the result always has one more piece than there are
separators. -/
def splitOnChar (sep : Char) : List Char → List (List Char)
  | [] => [[]]
  | c :: rest =>
      if c = sep then [] :: splitOnChar sep rest
      else
        match splitOnChar sep rest with
        | l :: ls => (c :: l) :: ls
        | [] => [[c]]

/-- Join pieces back with the separator character between them, the
semantics of joining with a one-character separator. -/
def joinWith (sep : Char) : List (List Char) → List Char
  | [] => []
  | [l] => l
  | l :: ls => l ++ sep :: joinWith sep ls

/-- Modelled from the spec: the whitespace pass. When line breaks are
escaped they are treated as spaces and collapsed away; when preserved the
pass is applied per line and the line structure kept. -/
def spacePass (escape_return : Bool) (s : String) : String :=
  if escape_return then
    String.mk (spaceLineChars (s.data.map (fun c => if c = '\n' then ' ' else c)))
  else
    String.mk (joinWith '\n' ((splitOnChar '\n' s.data).map spaceLineChars))

/-- Modelled from the spec: run one named pass. -/
def runPass (escape_return : Bool) (s : String) : EditorPass → String
  | .space => spacePass escape_return s
  | .number => numberPass s
  | .arabic => arabicPass s
  | .punctuation_marks => punctPass s

/-- Modelled from the spec: `PersianEditors.run` applies the active passes
in sequence to the text and returns the transformed text. -/
def editorRun (passes : List EditorPass) (escape_return : Bool)
    (s : String) : String :=
  passes.foldl (fun acc p => runPass escape_return acc p) s

/-- The full pass set used by the admin for most fields
(`['space', 'number', 'arabic', 'punctuation_marks']`). -/
def fullPasses : List EditorPass :=
  [.space, .number, .arabic, .punctuation_marks]

/-! ## Language-switch path rewriter (laumproject/urls.switch_lang_code) -/

/-- Result of `switch_lang_code`: either a raised exception message or the
rewritten path. Translated from `src/laumproject/urls.py`; the supported
language codes (from `settings.LANGUAGES`) are passed as a parameter. -/
def switch_lang_code (lang_codes : List String) (path language : String) :
    Except String String :=
  if path = "" then
    Except.error "URL path for language switch is empty"
  else if path.front ≠ '/' then
    Except.error "URL path for language switch does not start with separator"
  else if ¬ lang_codes.contains language then
    Except.error (language ++ " is not a supported language code")
  else
    let parts := splitOnChar '/' path.data
    if lang_codes.contains (String.mk (parts.getD 1 [])) then
      Except.ok (String.mk (joinWith '/' (parts.set 1 language.data)))
    else
      Except.ok (String.mk (joinWith '/' (parts.set 0 ('/' :: language.data))))

/-! ## Data model (web/models.py) -/

/-- Report status choices, translated from `Report.STATUS_CHOICES`. -/
inductive Status where
  | pending
  | accepted
  | denied
deriving DecidableEq, Repr

/-- A `Report` row: the fields the admin flow touches. `pk` is the
storage-assigned primary key; `page_pid` is the public identifier of the
parent `Page` (the foreign key targets `Page.pid`); `rid` is nullable and
not editable. -/
structure Report where
  pk : Nat
  page_pid : String
  rid : Option String := none
  body : String
  reporter : String
  description : String := ""
  status : Status := .pending
  language : String
deriving DecidableEq, Repr

/-- A `Page` row: the fields the admin flow and the uniqueness invariant
touch. `group` is the nullable foreign key to `Group.gid`. -/
structure Page where
  pk : Nat
  group : Option String := none
  pid : String
  title : String
  subtitle : String := ""
  content : String
  event : String := ""
  image_caption : String := ""
  language : String
  is_active : Bool := false
deriving DecidableEq, Repr

/-- A `Tag` row: the fields the admin queryset filter touches. -/
structure Tag where
  pk : Nat
  name : String
  keyword : String
  is_active : Bool := true
  language : String
deriving DecidableEq, Repr

/-! ## Identifier generation (web/models.generate_gid / generate_pid)

The random suffix source `helpers.id_generator` is absent from src/ and is
modelled from the spec as a stream of fresh draws indexed by attempt
number. The manager existence checks `is_gid_exist` / `is_pid_exist` are
absent from src/ and are modelled from the spec as membership of the
candidate among the persisted identifiers of that kind. The `while` loop
has no bound in the source, so the embedding takes explicit fuel: `none`
means the loop has not returned within `fuel` iterations. -/

/-- One retry loop, shared shape of `generate_gid` and `generate_pid`:
at attempt `i`, draw `draws i`, build `pre ++ "_" ++ draws i`, return it
unless it already exists in `store`, else retry. -/
def idGenLoop (pre : String) (store : List String) (draws : Nat → String) :
    Nat → Nat → Option String
  | _, 0 => none
  | i, fuel + 1 =>
      let candidate := pre ++ "_" ++ draws i
      if store.contains candidate then idGenLoop pre store draws (i + 1) fuel
      else some candidate

/-- `generate_gid`, translated from `src/web/models.py`: the configured
`settings.GID_PREFIX` and the persisted gids are parameters. -/
def generate_gid (gidPre : String) (gids : List String)
    (draws : Nat → String) (fuel : Nat) : Option String :=
  idGenLoop gidPre gids draws 0 fuel

/-- `generate_pid`, translated from `src/web/models.py`: the configured
`settings.PID_PREFIX` and the persisted pids are parameters. -/
def generate_pid (pidPre : String) (pids : List String)
    (draws : Nat → String) (fuel : Nat) : Option String :=
  idGenLoop pidPre pids draws 0 fuel

/-! ## Reference-ID deriver (web/models.generate_rid) -/

/-- Modelled from the spec: `helpers.swap_prefix` remaps the leading
token (the text before the first underscore separator) of an identifier
to the given configured value. -/
def swapPre (s newPre : String) : String :=
  match splitOnChar '_' s.data with
  | [] => newPre
  | _ :: rest => String.mk (joinWith '_' (newPre.data :: rest))

/-- `generate_rid`, translated from `src/web/models.py`: the `post_save`
receiver on `Report`. When `created` is true it writes
`swap_prefix(page.pid ++ "_" ++ pk, RID_PREFIX)` into `rid` and saves
again; otherwise it leaves the instance untouched. -/
def generate_rid (ridPre : String) (created : Bool) (instanceR : Report) :
    Report :=
  if created then
    { instanceR with
      rid := some (swapPre (instanceR.page_pid ++ "_" ++ toString instanceR.pk)
        ridPre) }
  else instanceR

/-! ## Report admin flow (web/admin.ReportAdmin) -/

/-- `ReportAdmin.get_readonly_fields`, translated from
`src/web/admin.py`: the base read-only list, extended with description
and status once the persisted status is no longer pending. -/
def reportReadonlyFields (obj : Option Report) : List String :=
  let base := ["view_page", "body", "rid", "send_email",
               "jalali_updated_on", "jalali_created_on"]
  match obj with
  | some o => if ¬ o.status = Status.pending
              then base ++ ["description", "status"] else base
  | none => base

/-- The data submitted through the report change form: only description
and status are ever editable in `ReportAdmin`. -/
structure ReportForm where
  description : String
  status : Status
deriving DecidableEq, Repr

/-- The admin form layer: a submitted value reaches the object only when
its field is not read-only; read-only fields keep the persisted value. -/
def applyReportForm (persisted : Report) (form : ReportForm)
    (readonly_fields : List String) : Report :=
  { persisted with
    description := if readonly_fields.contains "description"
                   then persisted.description else form.description
    status := if readonly_fields.contains "status"
              then persisted.status else form.status }

/-- `ReportAdmin.save_model`, translated from `src/web/admin.py`. Returns
the persisted object and the list of notification recipients (one email
is sent per list entry). `readonly_fields` is the list computed by
`get_readonly_fields` for this request; `cleaned_description` is
`form.cleaned_data['description']`. -/
def reportSaveModel (readonly_fields : List String) (obj : Report)
    (cleaned_description : String) : Report × List String :=
  let is_first_change :=
    ¬ readonly_fields.contains "status" ∧ ¬ obj.status = Status.pending
  let obj :=
    if is_first_change ∧ cleaned_description = "" then
      { obj with description := "-" }
    else obj
  let obj := { obj with description := editorRun fullPasses true obj.description }
  let obj := { obj with body := editorRun [.space] false obj.body }
  (obj, if is_first_change then [obj.reporter] else [])

/-- One admin change-view save of a persisted report: compute the
read-only fields from the persisted state, let the form write the
writable fields, then run `save_model`. -/
def reportAdminChange (persisted : Report) (form : ReportForm) :
    Report × List String :=
  let ro := reportReadonlyFields (some persisted)
  let obj := applyReportForm persisted form ro
  reportSaveModel ro obj form.description

/-! ## Page admin flow (web/admin.PageAdmin) -/

/-- `PageAdmin.save_model`, translated from `src/web/admin.py`: the five
text fields each run through the space, number, arabic and
punctuation-marks passes. -/
def pageSaveModel (obj : Page) : Page :=
  { obj with
    title := editorRun fullPasses true obj.title
    subtitle := editorRun fullPasses true obj.subtitle
    content := editorRun fullPasses true obj.content
    event := editorRun fullPasses true obj.event
    image_caption := editorRun fullPasses true obj.image_caption }

/-! ## Admin querysets (get_queryset of PageAdmin, ReportAdmin, TagAdmin)

`helpers.get_active_language` is absent from src/ and is modelled from the
spec as the request-scoped current language code, passed as a parameter. -/

/-- `PageAdmin.get_queryset`, translated from `src/web/admin.py`. -/
def pageAdminQueryset (store : List Page) (active_language : String) :
    List Page :=
  store.filter (fun p => p.language = active_language)

/-- `ReportAdmin.get_queryset`, translated from `src/web/admin.py`. -/
def reportAdminQueryset (store : List Report) (active_language : String) :
    List Report :=
  store.filter (fun r => r.language = active_language)

/-- `TagAdmin.get_queryset`, translated from `src/web/admin.py`. -/
def tagAdminQueryset (store : List Tag) (active_language : String) :
    List Tag :=
  store.filter (fun t => t.language = active_language)

/-! ## Page uniqueness (web/models.Page.Meta.unique_together)

The constraint is declared in `src/web/models.py` as
`unique_together = ('group', 'language')` and enforced by the excluded
store layer, so the store operation is modelled from the spec. -/

/-- Modelled from the spec: creating a Page against the store enforcing
`unique_together = ('group', 'language')`. A second Page with the same
group and language as an existing one fails with a uniqueness violation;
in that case no new store is produced, so the store is unchanged. -/
def createPage (store : List Page) (p : Page) : Except String (List Page) :=
  if store.any (fun q => q.group == p.group && q.language == p.language) then
    Except.error "UNIQUE constraint failed: web_page.group_id, web_page.language"
  else
    Except.ok (p :: store)

/-- The store states reachable from the empty store by successful
`createPage` operations. -/
inductive ReachableStore : List Page → Prop where
  | empty : ReachableStore []
  | create {store p store2} : ReachableStore store →
      createPage store p = Except.ok store2 → ReachableStore store2

/-! ## Localized date display (BaseModel.jalali_updated_on)

`templatetags.web_extras.convert_date_to_jalali` and
`convert_digits_to_persian` are absent from src/ and are modelled from the
spec: Gregorian year-month-day to its Jalali calendar equivalent, then
ASCII digits to Persian-script glyphs. -/

/-- A calendar date (the date part of a stored timestamp). -/
structure Date where
  year : Nat
  month : Nat
  day : Nat
deriving DecidableEq, Repr

/-- Zero-pad a number to two digits, as `%m` and `%d` do. -/
def pad2 (n : Nat) : String :=
  if n < 10 then "0" ++ toString n else toString n

/-- `strftime('%Y-%m-%d')` on the date part of a timestamp. -/
def strftimeYMD (d : Date) : String :=
  toString d.year ++ "-" ++ pad2 d.month ++ "-" ++ pad2 d.day

/-- Modelled from the spec: the Gregorian to Jalali calendar conversion
on (year, month, day) triples, via the day count since the Jalali epoch
and the 33-year leap cycle. -/
def gregorianToJalali (gy gm gd : Int) : Int × Int × Int :=
  let gdm : List Int := [0, 31, 59, 90, 120, 151, 181, 212, 243, 273, 304, 334]
  let gy2 : Int := if gm > 2 then gy + 1 else gy
  let days : Int := 355666 + 365 * gy + (gy2 + 3) / 4 - (gy2 + 99) / 100
      + (gy2 + 399) / 400 + gd + gdm.getD (gm - 1).toNat 0
  let jy : Int := 33 * (days / 12053) - 1595
  let days : Int := days % 12053
  let jy : Int := jy + 4 * (days / 1461)
  let days : Int := days % 1461
  let jyDays : Int × Int :=
    if days > 365 then (jy + (days - 1) / 365, (days - 1) % 365)
    else (jy, days)
  if jyDays.2 < 186 then (jyDays.1, 1 + jyDays.2 / 31, 1 + jyDays.2 % 31)
  else (jyDays.1, 7 + (jyDays.2 - 186) / 30, 1 + (jyDays.2 - 186) % 30)

/-- The numeric value of an ASCII digit character. -/
def digitVal (c : Char) : Option Nat :=
  if '0' ≤ c ∧ c ≤ '9' then some (c.toNat - '0'.toNat) else none

/-- Read a decimal number from a character list. -/
def natOfDigits (cs : List Char) : Option Nat :=
  if cs = [] then none
  else
    cs.foldl
      (fun acc c =>
        match acc, digitVal c with
        | some n, some d => some (10 * n + d)
        | _, _ => none)
      (some 0)

/-- Parse a `%Y-%m-%d` formatted date string. -/
def parseYMD (s : String) : Int × Int × Int :=
  match (splitOnChar '-' s.data).map natOfDigits with
  | [some y, some m, some d] => ((y : Int), (m : Int), (d : Int))
  | _ => (0, 0, 0)

/-- Modelled from the spec: `convert_date_to_jalali` takes the
year-month-day display string of a Gregorian date and returns the display
string of its Jalali calendar equivalent. -/
def convert_date_to_jalali (s : String) : String :=
  let g := parseYMD s
  let j := gregorianToJalali g.1 g.2.1 g.2.2
  toString j.1 ++ "-" ++ pad2 j.2.1.toNat ++ "-" ++ pad2 j.2.2.toNat

/-- Modelled from the spec: `convert_digits_to_persian` remaps the ASCII
digit glyphs of a display string to Persian-script digit glyphs. -/
def convert_digits_to_persian (s : String) : String :=
  String.mk (s.data.map persianDigit)

/-- The timestamp fields of `BaseModel` that the localized display
methods read. -/
structure BaseModelDates where
  language : String
  updated_on : Date
  created_on : Date
deriving DecidableEq, Repr

/-- `BaseModel.jalali_updated_on`, translated from `src/web/models.py`:
convert the formatted date to Jalali, then remap digits to Persian. -/
def jalali_updated_on (m : BaseModelDates) : String :=
  let jalali_date := convert_date_to_jalali (strftimeYMD m.updated_on)
  convert_digits_to_persian jalali_date

/-- `BaseModel.jalali_created_on`, translated from `src/web/models.py`. -/
def jalali_created_on (m : BaseModelDates) : String :=
  let jalali_date := convert_date_to_jalali (strftimeYMD m.created_on)
  convert_digits_to_persian jalali_date

/-! ## Theorems -/

/-- C7: the language-switch path rewriter raises exactly on invalid input
(empty path, path not starting with the separator, or unsupported language
code) and on every valid input returns the rewritten path without raising,
replacing the first path segment when it is a supported language code and
prefixing the new language otherwise. -/
theorem switch_lang_code_error_iff_invalid (lang_codes : List String)
    (path language : String) :
    ((path = "" ∨ path.front ≠ '/' ∨ lang_codes.contains language = false) →
      ∃ e, switch_lang_code lang_codes path language = Except.error e)
    ∧ (path ≠ "" → path.front = '/' → lang_codes.contains language = true →
      switch_lang_code lang_codes path language =
        Except.ok (
          if lang_codes.contains
              (String.mk ((splitOnChar '/' path.data).getD 1 [])) then
            String.mk (joinWith '/'
              ((splitOnChar '/' path.data).set 1 language.data))
          else
            String.mk (joinWith '/'
              ((splitOnChar '/' path.data).set 0 ('/' :: language.data))))) := by
  constructor
  · intro h
    by_cases h1 : path = ""
    · exact ⟨"URL path for language switch is empty",
        by simp [switch_lang_code, h1]⟩
    · by_cases h2 : path.front = '/'
      · have h3 : lang_codes.contains language = false := by
          rcases h with h | h | h <;> simp_all
        refine ⟨language ++ " is not a supported language code", ?_⟩
        simp only [switch_lang_code, h1, h2, h3]
        simp
      · exact ⟨"URL path for language switch does not start with separator",
          by simp [switch_lang_code, h1, h2]⟩
  · intro h1 h2 h3
    simp only [switch_lang_code, h1, h2, h3]
    simp only [Bool.true_eq_false, not_true_eq_false, if_false, ite_false,
      not_false_eq_true, ite_true, ne_eq, if_neg, if_pos]
    split <;> simp_all

/-- Witness for C7 at concrete inputs: a path without the leading
separator raises; a valid path with a supported leading segment is
rewritten by replacing that segment. -/
theorem switch_lang_code_error_iff_invalid_witness :
    (∃ e, switch_lang_code ["fa", "en"] "about" "fa" = Except.error e)
    ∧ switch_lang_code ["fa", "en"] "/en/about" "fa" =
        Except.ok "/fa/about" := by
  constructor
  · exact (switch_lang_code_error_iff_invalid ["fa", "en"] "about" "fa").1
      (Or.inr (Or.inl (by decide)))
  · have h := (switch_lang_code_error_iff_invalid
      ["fa", "en"] "/en/about" "fa").2 (by decide) (by decide) (by decide)
    exact h.trans (by rfl)

/-- C10: the admin querysets for Page, Report and Tag expose only records
whose language equals the active request language; a record whose language
differs is absent from the queryset of its kind. -/
theorem admin_querysets_filter_language (pstore : List Page)
    (rstore : List Report) (tstore : List Tag) (lang : String)
    (p : Page) (r : Report) (t : Tag) :
    (p.language ≠ lang → p ∉ pageAdminQueryset pstore lang)
    ∧ (r.language ≠ lang → r ∉ reportAdminQueryset rstore lang)
    ∧ (t.language ≠ lang → t ∉ tagAdminQueryset tstore lang) := by
  refine ⟨fun h hm => ?_, fun h hm => ?_, fun h hm => ?_⟩
  · simp [pageAdminQueryset, List.mem_filter] at hm
    exact h hm.2
  · simp [reportAdminQueryset, List.mem_filter] at hm
    exact h hm.2
  · simp [tagAdminQueryset, List.mem_filter] at hm
    exact h hm.2

/-- Sample records used by concrete witnesses. -/
def pSample : Page :=
  { pk := 1, pid := "PID_a", title := "t", content := "c", language := "en" }

/-- Sample report used by concrete witnesses. -/
def rSample : Report :=
  { pk := 1, page_pid := "PID_a", body := "b", reporter := "u@example.org",
    language := "en" }

/-- Sample tag used by concrete witnesses. -/
def tSample : Tag :=
  { pk := 1, name := "n", keyword := "k", language := "en" }

/-- Witness for C10: an English-language record is absent from the
admin querysets when the active language is Persian. -/
theorem admin_querysets_filter_language_witness :
    pSample.language ≠ "fa"
    ∧ pSample ∉ pageAdminQueryset [pSample] "fa"
    ∧ rSample ∉ reportAdminQueryset [rSample] "fa"
    ∧ tSample ∉ tagAdminQueryset [tSample] "fa" := by
  have h := admin_querysets_filter_language [pSample] [rSample] [tSample]
    "fa" pSample rSample tSample
  exact ⟨by decide, h.1 (by decide), h.2.1 (by decide), h.2.2 (by decide)⟩

/-- Soundness of the shared retry loop: a returned identifier is the
configured head, the separator and one of the drawn suffixes, and is
absent from the persisted store. -/
theorem idGenLoop_sound (pre : String) (store : List String)
    (draws : Nat → String) :
    ∀ fuel i g, idGenLoop pre store draws i fuel = some g →
      (∃ j, g = pre ++ "_" ++ draws j) ∧ store.contains g = false := by
  intro fuel
  induction fuel with
  | zero => intro i g h; simp [idGenLoop] at h
  | succ f ih =>
      intro i g h
      simp only [idGenLoop] at h
      by_cases hc : store.contains (pre ++ "_" ++ draws i) = true
      · rw [if_pos hc] at h
        exact ih _ _ h
      · rw [if_neg hc] at h
        cases h
        exact ⟨⟨i, rfl⟩, by simpa using hc⟩

/-- If every candidate the stream can draw collides with the store, the
retry loop never returns, whatever the fuel. -/
theorem idGenLoop_none_of_all_collide (pre : String) (store : List String)
    (draws : Nat → String)
    (hall : ∀ j, store.contains (pre ++ "_" ++ draws j) = true) :
    ∀ fuel i, idGenLoop pre store draws i fuel = none := by
  intro fuel
  induction fuel with
  | zero => intro i; rfl
  | succ f ih =>
      intro i
      simp only [idGenLoop]
      rw [if_pos (hall i)]
      exact ih (i + 1)

/-- If some candidate within the fuel window does not collide, the retry
loop returns an identifier. -/
theorem idGenLoop_some_of_fresh (pre : String) (store : List String)
    (draws : Nat → String) :
    ∀ fuel i,
      (∃ k, k < fuel ∧ store.contains (pre ++ "_" ++ draws (i + k)) = false) →
      ∃ g, idGenLoop pre store draws i fuel = some g := by
  intro fuel
  induction fuel with
  | zero =>
      rintro i ⟨k, hk, -⟩
      exact absurd hk (Nat.not_lt_zero k)
  | succ f ih =>
      rintro i ⟨k, hk, hfresh⟩
      simp only [idGenLoop]
      by_cases hc : store.contains (pre ++ "_" ++ draws i) = true
      · rw [if_pos hc]
        have hk0 : k ≠ 0 := by
          intro h0
          subst h0
          rw [Nat.add_zero] at hfresh
          rw [hfresh] at hc
          simp at hc
        refine ih (i + 1) ⟨k - 1, by omega, ?_⟩
        have harith : i + 1 + (k - 1) = i + k := by omega
        rw [harith]
        exact hfresh
      · rw [if_neg hc]
        exact ⟨_, rfl⟩

/-- C1: every identifier returned by the Group/Page generator is the
configured head followed by the underscore separator and the drawn random
suffix, and at the moment of return is held by no persisted record of
that kind; two calls against the same populated store never return an
identifier already present. -/
theorem generated_id_format_and_fresh (gidPre pidPre : String)
    (gids pids : List String) (draws draws2 : Nat → String)
    (fuel fuel2 : Nat) (g g2 p : String) :
    (generate_gid gidPre gids draws fuel = some g →
      (∃ j, g = gidPre ++ "_" ++ draws j) ∧ gids.contains g = false)
    ∧ (generate_pid pidPre pids draws fuel = some p →
      (∃ j, p = pidPre ++ "_" ++ draws j) ∧ pids.contains p = false)
    ∧ (generate_gid gidPre gids draws fuel = some g →
      generate_gid gidPre (g :: gids) draws2 fuel2 = some g2 → g2 ≠ g) := by
  refine ⟨fun h => ?_, fun h => ?_, fun h h2 => ?_⟩
  · exact idGenLoop_sound gidPre gids draws fuel 0 g h
  · exact idGenLoop_sound pidPre pids draws fuel 0 p h
  · have hs := (idGenLoop_sound gidPre (g :: gids) draws2 fuel2 0 g2 h2).2
    intro hEq
    subst hEq
    simp at hs

/-- A concrete stream of suffix draws used by the identifier witnesses. -/
def wDraws : Nat → String := fun i => if i = 0 then "a" else "b"

/-- Witness for C1 at concrete inputs: against the store holding `GID_a`,
the generator skips the colliding first draw and returns `GID_b`, which
is fresh; a second call against the store now holding `GID_b` returns a
different identifier. -/
theorem generated_id_format_and_fresh_witness :
    generate_gid "GID" ["GID_a"] wDraws 2 = some "GID_b"
    ∧ ((∃ j, "GID_b" = "GID" ++ "_" ++ wDraws j)
        ∧ ["GID_a"].contains "GID_b" = false)
    ∧ ((∃ j, "PID_b" = "PID" ++ "_" ++ wDraws j)
        ∧ ["PID_a"].contains "PID_b" = false)
    ∧ ("GID_c" : String) ≠ "GID_b" := by
  have h := generated_id_format_and_fresh "GID" "PID" ["GID_a"] ["PID_a"]
    wDraws (fun _ => "c") 2 1 "GID_b" "GID_c" "PID_b"
  refine ⟨by decide, h.1 (by decide), h.2.1 (by decide), ?_⟩
  exact h.2.2 (by decide) (by decide)

/-- C5: the gid/pid retry loop returns only identifiers that do not
collide with the persisted store; under the hypothesis that every
candidate collides (exhausted keyspace) it never returns, whatever the
fuel; and as soon as some draw does not collide, a large enough fuel
makes it return. -/
theorem id_generation_unbounded_retry (pre : String) (store : List String)
    (draws : Nat → String) :
    ((∀ j, store.contains (pre ++ "_" ++ draws j) = true) →
      ∀ fuel, generate_gid pre store draws fuel = none
        ∧ generate_pid pre store draws fuel = none)
    ∧ (∀ j, store.contains (pre ++ "_" ++ draws j) = false →
      ∃ fuel g, generate_gid pre store draws fuel = some g)
    ∧ (∀ fuel g, generate_gid pre store draws fuel = some g →
      store.contains g = false) := by
  refine ⟨fun hall fuel => ?_, fun j hj => ?_, fun fuel g h => ?_⟩
  · exact ⟨idGenLoop_none_of_all_collide pre store draws hall fuel 0,
      idGenLoop_none_of_all_collide pre store draws hall fuel 0⟩
  · obtain ⟨g, hg⟩ := idGenLoop_some_of_fresh pre store draws (j + 1) 0
      ⟨j, Nat.lt_succ_self j, by simpa using hj⟩
    exact ⟨j + 1, g, hg⟩
  · exact (idGenLoop_sound pre store draws fuel 0 g h).2

/-- Witness for C5 at concrete inputs: when the single possible draw is
already persisted the loop yields nothing at several fuels, and one fresh
draw suffices for it to return. -/
theorem id_generation_unbounded_retry_witness :
    generate_gid "GID" ["GID_a"] (fun _ => "a") 3 = none
    ∧ generate_pid "GID" ["GID_a"] (fun _ => "a") 3 = none
    ∧ (∃ fuel g, generate_gid "GID" ["GID_a"] wDraws fuel = some g)
    ∧ (["GID_a"] : List String).contains "GID_b" = false := by
  have h := id_generation_unbounded_retry "GID" ["GID_a"] (fun _ => "a")
  have h2 := id_generation_unbounded_retry "GID" ["GID_a"] wDraws
  have hall := h.1 (fun j => by decide) 3
  refine ⟨hall.1, hall.2, h2.2.1 1 (by decide), ?_⟩
  exact h2.2.2 2 "GID_b" (by decide)

/-- C4: the reference identifier of a Report is derived on the
created-save exactly, as a deterministic function of the parent Page
public identifier and the storage-assigned primary key, with the leading
token remapped to the configured value; a non-created save never touches
the instance. -/
theorem rid_derived_once_deterministic (ridPre : String) (r s : Report) :
    ((generate_rid ridPre true r).rid =
      some (swapPre (r.page_pid ++ "_" ++ toString r.pk) ridPre))
    ∧ (s.page_pid = r.page_pid → s.pk = r.pk →
      (generate_rid ridPre true s).rid = (generate_rid ridPre true r).rid)
    ∧ (generate_rid ridPre false r = r)
    ∧ (generate_rid ridPre false (generate_rid ridPre true r) =
      generate_rid ridPre true r) := by
  refine ⟨rfl, fun h1 h2 => ?_, rfl, rfl⟩
  simp [generate_rid, h1, h2]

/-- Sample report used by the reference-identifier witness. -/
def rRidA : Report :=
  { pk := 7, page_pid := "PID_xyz", body := "b1", reporter := "u@example.org",
    language := "fa" }

/-- A second sample sharing the parent page and primary key but differing
elsewhere, for the determinism part of the witness. -/
def rRidB : Report :=
  { pk := 7, page_pid := "PID_xyz", body := "b2", reporter := "v@example.org",
    language := "en" }

/-- Witness for C4 at concrete inputs: the derived value swaps the PID
token for the RID one, depends only on the parent pid and the primary
key, and a non-created save is the identity. -/
theorem rid_derived_once_deterministic_witness :
    (generate_rid "RID" true rRidA).rid = some "RID_xyz_7"
    ∧ (generate_rid "RID" true rRidB).rid = (generate_rid "RID" true rRidA).rid
    ∧ generate_rid "RID" false rRidA = rRidA := by
  have h := rid_derived_once_deterministic "RID" rRidA rRidB
  exact ⟨h.1.trans (by rfl), h.2.1 (by rfl) (by rfl), h.2.2.1⟩

/-- C2: once a Report has left the pending status, an admin change-view
save can change neither its status nor its description (the persisted
description being in the normal form the admin always stores), sends no
notification, and in particular a later edit submitting the denied status
against an accepted report leaves the persisted status accepted. -/
theorem decided_report_immutable (r : Report) (f : ReportForm)
    (hdec : r.status ≠ Status.pending)
    (hfix : editorRun fullPasses true r.description = r.description) :
    (reportAdminChange r f).1.status = r.status
    ∧ (reportAdminChange r f).1.description = r.description
    ∧ (reportAdminChange r f).2 = []
    ∧ (r.status = Status.accepted → f.status = Status.denied →
      (reportAdminChange r f).1.status = Status.accepted) := by
  have hro : reportReadonlyFields (some r) =
      ["view_page", "body", "rid", "send_email", "jalali_updated_on",
       "jalali_created_on", "description", "status"] := by
    simp [reportReadonlyFields, hdec]
  refine ⟨?_, ?_, ?_, ?_⟩ <;>
    simp [reportAdminChange, hro, applyReportForm, reportSaveModel, hfix]
  intro ha _
  simpa [reportAdminChange, hro, applyReportForm, reportSaveModel] using ha

/-- A decided sample report whose description is already in the stored
normal form, for the C2 witness. -/
def rDecided : Report :=
  { pk := 3, page_pid := "PID_x", body := "b", reporter := "u@example.org",
    description := "-", status := Status.accepted, language := "fa" }

/-- Witness for C2 at concrete inputs: editing an accepted report and
submitting the denied status with another description changes nothing
persisted and sends no notification. -/
theorem decided_report_immutable_witness :
    rDecided.status ≠ Status.pending
    ∧ editorRun fullPasses true rDecided.description = rDecided.description
    ∧ (reportAdminChange rDecided ⟨"zzz", Status.denied⟩).1.status =
        Status.accepted
    ∧ (reportAdminChange rDecided ⟨"zzz", Status.denied⟩).1.description = "-"
    ∧ (reportAdminChange rDecided ⟨"zzz", Status.denied⟩).2 = [] := by
  have h := decided_report_immutable rDecided ⟨"zzz", Status.denied⟩
    (by decide) (by decide)
  exact ⟨by decide, by decide, h.2.2.2 (by decide) (by decide),
    h.2.1.trans (by decide), h.2.2.1⟩

/-- C3: on the first status-changing save of a pending Report, an empty
submitted description is replaced by the non-empty placeholder and exactly
one notification goes to the reporter address, while a save that leaves
the status pending sends no notification. -/
theorem first_decision_placeholder_and_notification (r : Report)
    (f : ReportForm) (hp : r.status = Status.pending) :
    (f.status ≠ Status.pending → f.description = "" →
      (reportAdminChange r f).1.description = "-"
      ∧ (reportAdminChange r f).1.description ≠ ""
      ∧ (reportAdminChange r f).2 = [r.reporter]
      ∧ (reportAdminChange r f).1.status = f.status)
    ∧ (f.status = Status.pending → (reportAdminChange r f).2 = []) := by
  have hro : reportReadonlyFields (some r) =
      ["view_page", "body", "rid", "send_email", "jalali_updated_on",
       "jalali_created_on"] := by
    simp [reportReadonlyFields, hp]
  constructor
  · intro hs hd
    refine ⟨?_, ?_, ?_, ?_⟩ <;>
      simp [reportAdminChange, hro, applyReportForm, reportSaveModel,
        hs, hd, hp] <;> decide
  · intro hs
    simp [reportAdminChange, hro, applyReportForm, reportSaveModel, hs, hp]

/-- A pending sample report for the C3 witness. -/
def rPending : Report :=
  { pk := 4, page_pid := "PID_x", body := "b", reporter := "u@example.org",
    description := "", status := Status.pending, language := "fa" }

/-- Witness for C3 at concrete inputs: accepting the pending report with
an empty description stores the placeholder and notifies the reporter
exactly once; saving it still pending notifies nobody. -/
theorem first_decision_placeholder_and_notification_witness :
    rPending.status = Status.pending
    ∧ (reportAdminChange rPending ⟨"", Status.accepted⟩).1.description = "-"
    ∧ (reportAdminChange rPending ⟨"", Status.accepted⟩).2 = ["u@example.org"]
    ∧ (reportAdminChange rPending ⟨"", Status.pending⟩).2 = [] := by
  have h := first_decision_placeholder_and_notification rPending
    ⟨"", Status.accepted⟩ (by decide)
  have h2 := first_decision_placeholder_and_notification rPending
    ⟨"", Status.pending⟩ (by decide)
  have hfirst := h.1 (by decide) (by decide)
  exact ⟨by decide, hfirst.1, hfirst.2.2.1, h2.2 (by decide)⟩

/-- C8: in every reachable store state there is at most one Page per
(group, language) pair, and creating a second Page with the group and
language of an existing one fails with a uniqueness violation, producing
no new store state (the store is left unchanged). -/
theorem page_unique_per_group_language (store : List Page) (p : Page) :
    (ReachableStore store →
      store.Pairwise (fun a b => ¬(a.group = b.group ∧ a.language = b.language)))
    ∧ ((∃ q ∈ store, q.group = p.group ∧ q.language = p.language) →
      createPage store p =
        Except.error
          "UNIQUE constraint failed: web_page.group_id, web_page.language") := by
  constructor
  · intro h
    induction h with
    | empty => exact List.Pairwise.nil
    | @create st q st2 hst hcreate ih =>
        unfold createPage at hcreate
        by_cases hc :
            st.any (fun x => x.group == q.group && x.language == q.language)
        · rw [if_pos hc] at hcreate
          cases hcreate
        · rw [if_neg hc] at hcreate
          cases hcreate
          refine List.Pairwise.cons ?_ ih
          intro b hb hkey
          apply hc
          rw [List.any_eq_true]
          refine ⟨b, hb, ?_⟩
          simp [hkey.1, hkey.2]
  · rintro ⟨q, hq, hkey⟩
    unfold createPage
    rw [if_pos]
    rw [List.any_eq_true]
    refine ⟨q, hq, ?_⟩
    simp [hkey.1, hkey.2]

/-- A sample page for the uniqueness witness. -/
def pUniqueA : Page :=
  { pk := 1, group := some "GID_g", pid := "PID_a", title := "t1",
    content := "c1", language := "fa" }

/-- A second sample page with the same group and language but a different
public identifier. -/
def pUniqueB : Page :=
  { pk := 2, group := some "GID_g", pid := "PID_b", title := "t2",
    content := "c2", language := "fa" }

/-- Witness for C8 at concrete inputs: after creating the first page,
creating a second one for the same (group, language) pair fails with the
uniqueness violation, and the singleton store is duplicate-free. -/
theorem page_unique_per_group_language_witness :
    createPage [] pUniqueA = Except.ok [pUniqueA]
    ∧ createPage [pUniqueA] pUniqueB =
        Except.error
          "UNIQUE constraint failed: web_page.group_id, web_page.language"
    ∧ List.Pairwise
        (fun a b => ¬(a.group = b.group ∧ a.language = b.language))
        [pUniqueA] := by
  have h := page_unique_per_group_language [pUniqueA] pUniqueB
  refine ⟨by rfl, h.2 ⟨pUniqueA, by decide, by decide, by decide⟩, ?_⟩
  exact h.1 (ReachableStore.create ReachableStore.empty (by rfl))

/-- C9: the localized date display first converts the year-month-day
formatted Gregorian date to its Jalali calendar equivalent and then
remaps the ASCII digits of that string to Persian-script glyphs; the
computation reads only the stored timestamp, so records agreeing on it
display identically and no stored field is written. -/
theorem jalali_display_composition (m m2 : BaseModelDates) :
    jalali_updated_on m =
      convert_digits_to_persian
        (convert_date_to_jalali (strftimeYMD m.updated_on))
    ∧ (m2.updated_on = m.updated_on →
      jalali_updated_on m2 = jalali_updated_on m) := by
  exact ⟨rfl, fun h => by simp [jalali_updated_on, h]⟩

/-- A sample record stamped with the Gregorian date 2023-03-21. -/
def mNowruz : BaseModelDates :=
  { language := "fa", updated_on := ⟨2023, 3, 21⟩, created_on := ⟨2023, 3, 21⟩ }

/-- The same timestamp on a record differing elsewhere. -/
def mNowruz2 : BaseModelDates :=
  { language := "en", updated_on := ⟨2023, 3, 21⟩, created_on := ⟨2020, 1, 2⟩ }

/-- Witness for C9 at a concrete date: 2023-03-21 displays as the first
day of Jalali year 1402 in Persian digits, and a record with the same
timestamp but different other fields displays identically. -/
theorem jalali_display_composition_witness :
    mNowruz2.updated_on = mNowruz.updated_on
    ∧ jalali_updated_on mNowruz2 = jalali_updated_on mNowruz
    ∧ jalali_updated_on mNowruz = "۱۴۰۲-۰۱-۰۱" := by
  have h := jalali_display_composition mNowruz mNowruz2
  exact ⟨by decide, h.2 (by decide), h.1.trans (by decide)⟩

/-- Collapsing space runs only keeps characters of the input. -/
theorem mem_collapseSpaces : ∀ (cs : List Char) (c : Char),
    c ∈ collapseSpaces cs → c ∈ cs
  | [], c, h => by simp [collapseSpaces] at h
  | [d], c, h => by simpa [collapseSpaces] using h
  | a :: b :: rest, c, h => by
      simp only [collapseSpaces] at h
      by_cases hab : a = ' ' ∧ b = ' '
      · rw [if_pos hab] at h
        exact List.mem_cons_of_mem a (mem_collapseSpaces (b :: rest) c h)
      · rw [if_neg hab] at h
        rcases List.mem_cons.mp h with h | h
        · exact h ▸ List.mem_cons_self a (b :: rest)
        · exact List.mem_cons_of_mem a (mem_collapseSpaces (b :: rest) c h)

/-- Dropping leading spaces only keeps characters of the input. -/
theorem mem_dropLeadSpaces : ∀ (cs : List Char) (c : Char),
    c ∈ dropLeadSpaces cs → c ∈ cs
  | [], c, h => by simp [dropLeadSpaces] at h
  | a :: rest, c, h => by
      simp only [dropLeadSpaces] at h
      by_cases ha : a = ' '
      · rw [if_pos ha] at h
        exact List.mem_cons_of_mem a (mem_dropLeadSpaces rest c h)
      · rwa [if_neg ha] at h

/-- Trimming and collapsing only keeps characters of the input. -/
theorem mem_tidySpaces (cs : List Char) (c : Char)
    (h : c ∈ tidySpaces cs) : c ∈ cs := by
  unfold tidySpaces at h
  have h1 := mem_dropLeadSpaces _ _ h
  rw [List.mem_reverse] at h1
  have h2 := mem_dropLeadSpaces _ _ h1
  rw [List.mem_reverse] at h2
  exact mem_collapseSpaces _ _ h2

/-- The per-line whitespace pass introduces no newline character. -/
theorem no_newline_spaceLineChars (cs : List Char) (h : '\n' ∉ cs) :
    '\n' ∉ spaceLineChars cs := by
  intro hmem
  have h1 := mem_tidySpaces _ _ hmem
  rw [List.mem_map] at h1
  obtain ⟨a, ha, hfa⟩ := h1
  by_cases hta : a = '\t'
  · rw [hta] at hfa
    simp at hfa
  · simp only [if_neg hta] at hfa
    exact h (hfa ▸ ha)

/-- Splitting never yields an empty list of pieces. -/
theorem splitOnChar_ne_nil (sep : Char) : ∀ cs, splitOnChar sep cs ≠ []
  | [] => by simp [splitOnChar]
  | c :: rest => by
      simp only [splitOnChar]
      by_cases hc : c = sep
      · rw [if_pos hc]
        simp
      · rw [if_neg hc]
        cases hsplit : splitOnChar sep rest with
        | nil => simp
        | cons l ls => simp

/-- No piece produced by the splitter contains the separator. -/
theorem no_sep_splitOnChar (sep : Char) : ∀ (cs l : List Char),
    l ∈ splitOnChar sep cs → sep ∉ l
  | [], l, h => by
      simp [splitOnChar] at h
      subst h
      simp
  | c :: rest, l, h => by
      simp only [splitOnChar] at h
      by_cases hc : c = sep
      · rw [if_pos hc] at h
        rcases List.mem_cons.mp h with h | h
        · subst h
          simp
        · exact no_sep_splitOnChar sep rest l h
      · rw [if_neg hc] at h
        cases hsplit : splitOnChar sep rest with
        | nil => exact absurd hsplit (splitOnChar_ne_nil sep rest)
        | cons m ms =>
            rw [hsplit] at h
            rcases List.mem_cons.mp h with h | h
            · subst h
              intro hsep
              rcases List.mem_cons.mp hsep with h1 | h1
              · exact hc h1.symm
              · exact no_sep_splitOnChar sep rest m
                  (hsplit ▸ List.mem_cons_self m ms) h1
            · exact no_sep_splitOnChar sep rest l
                (hsplit ▸ List.mem_cons_of_mem m h)

/-- Joining with the separator is a left inverse of splitting on it. -/
theorem joinWith_splitOnChar (sep : Char) :
    ∀ cs, joinWith sep (splitOnChar sep cs) = cs
  | [] => rfl
  | c :: rest => by
      simp only [splitOnChar]
      by_cases hc : c = sep
      · rw [if_pos hc]
        cases hsplit : splitOnChar sep rest with
        | nil => exact absurd hsplit (splitOnChar_ne_nil sep rest)
        | cons m ms =>
            have hjoin : joinWith sep ([] :: m :: ms) =
                sep :: joinWith sep (m :: ms) := rfl
            rw [hjoin, ← hsplit, joinWith_splitOnChar sep rest, hc]
      · rw [if_neg hc]
        cases hsplit : splitOnChar sep rest with
        | nil => exact absurd hsplit (splitOnChar_ne_nil sep rest)
        | cons m ms =>
            have hrt := joinWith_splitOnChar sep rest
            rw [hsplit] at hrt
            cases ms with
            | nil =>
                have hjoin : joinWith sep [c :: m] = c :: m := rfl
                have hm : joinWith sep [m] = m := rfl
                rw [hm] at hrt
                rw [hjoin, hrt]
            | cons m2 ms2 =>
                have hjoin : joinWith sep ((c :: m) :: m2 :: ms2) =
                    (c :: m) ++ sep :: joinWith sep (m2 :: ms2) := rfl
                have hjoin2 : joinWith sep (m :: m2 :: ms2) =
                    m ++ sep :: joinWith sep (m2 :: ms2) := rfl
                rw [hjoin2] at hrt
                rw [hjoin, List.cons_append, hrt]

/-- Counting the separator in a join of separator-free pieces counts the
joints. -/
theorem count_joinWith_newline : ∀ (ls : List (List Char)),
    (∀ l ∈ ls, '\n' ∉ l) →
    List.count '\n' (joinWith '\n' ls) = ls.length - 1
  | [], _ => rfl
  | [l], h => by
      have hjoin : joinWith '\n' [l] = l := rfl
      rw [hjoin]
      simpa using List.count_eq_zero.mpr (h l (by simp))
  | l :: l2 :: ls, h => by
      have hjoin : joinWith '\n' (l :: l2 :: ls) =
          l ++ '\n' :: joinWith '\n' (l2 :: ls) := rfl
      rw [hjoin, List.count_append, List.count_cons_self]
      have h1 : List.count '\n' l = 0 :=
        List.count_eq_zero.mpr (h l (by simp))
      have h2 := count_joinWith_newline (l2 :: ls)
        (fun x hx => h x (List.mem_cons_of_mem l hx))
      rw [h1, h2]
      simp only [List.length_cons]
      omega

/-- The body variant of the whitespace pass preserves the number of line
breaks: they are neither escaped away nor introduced. -/
theorem count_newline_spacePass_body (s : String) :
    List.count '\n' (spacePass false s).data = List.count '\n' s.data := by
  have hpieces : ∀ l ∈ (splitOnChar '\n' s.data).map spaceLineChars,
      '\n' ∉ l := by
    intro l hl
    rw [List.mem_map] at hl
    obtain ⟨m, hm, rfl⟩ := hl
    exact no_newline_spaceLineChars m (no_sep_splitOnChar '\n' s.data m hm)
  have h1 : (spacePass false s).data =
      joinWith '\n' ((splitOnChar '\n' s.data).map spaceLineChars) := rfl
  rw [h1, count_joinWith_newline _ hpieces, List.length_map]
  conv_rhs => rw [← joinWith_splitOnChar '\n' s.data]
  rw [count_joinWith_newline _ (fun l hl => no_sep_splitOnChar '\n' s.data l hl)]

/-- C6: on every admin save, normalization is applied with field-specific
pass subsets: the title, subtitle, content, event and image caption of a
Page and the description of a Report each run through the space, number,
Arabic and punctuation-marks passes, while a Report body runs through the
space pass only, with line breaks preserved rather than escaped. -/
theorem per_field_normalization_passes (p : Page) (r : Report)
    (f : ReportForm) :
    (pageSaveModel p).title = editorRun fullPasses true p.title
    ∧ (pageSaveModel p).subtitle = editorRun fullPasses true p.subtitle
    ∧ (pageSaveModel p).content = editorRun fullPasses true p.content
    ∧ (pageSaveModel p).event = editorRun fullPasses true p.event
    ∧ (pageSaveModel p).image_caption =
        editorRun fullPasses true p.image_caption
    ∧ (pageSaveModel p).pid = p.pid
    ∧ (reportAdminChange r f).1.body = editorRun [EditorPass.space] false r.body
    ∧ (r.status = Status.pending → f.description ≠ "" →
      (reportAdminChange r f).1.description =
        editorRun fullPasses true f.description)
    ∧ (∀ s : String,
      List.count '\n' (editorRun [EditorPass.space] false s).data =
        List.count '\n' s.data) := by
  refine ⟨rfl, rfl, rfl, rfl, rfl, rfl, ?_, ?_, ?_⟩
  · by_cases hp : r.status = Status.pending
    · have hro : reportReadonlyFields (some r) =
          ["view_page", "body", "rid", "send_email", "jalali_updated_on",
           "jalali_created_on"] := by
        simp [reportReadonlyFields, hp]
      simp only [reportAdminChange, hro, applyReportForm, reportSaveModel]
      simp
      split <;> rfl
    · have hro : reportReadonlyFields (some r) =
          ["view_page", "body", "rid", "send_email", "jalali_updated_on",
           "jalali_created_on", "description", "status"] := by
        simp [reportReadonlyFields, hp]
      simp [reportAdminChange, hro, applyReportForm, reportSaveModel]
  · intro hp hd
    have hro : reportReadonlyFields (some r) =
        ["view_page", "body", "rid", "send_email", "jalali_updated_on",
         "jalali_created_on"] := by
      simp [reportReadonlyFields, hp]
    by_cases hs : f.status = Status.pending
    · simp [reportAdminChange, hro, applyReportForm, reportSaveModel, hs]
    · simp [reportAdminChange, hro, applyReportForm, reportSaveModel, hs, hd]
  · intro s
    have h1 : editorRun [EditorPass.space] false s = spacePass false s := rfl
    rw [h1]
    exact count_newline_spacePass_body s

/-- A sample page with text needing all the passes, for the C6 witness. -/
def pDirty : Page :=
  { pk := 9, pid := "PID_w", title := "  hi   there, 12 ", subtitle := "a  b",
    content := "x ,y", event := "e  1", image_caption := " cap 3 ",
    language := "fa" }

/-- A sample pending report with a multi-line body, for the C6 witness. -/
def rDirty : Report :=
  { pk := 9, page_pid := "PID_w", body := "line  one\n line two ",
    reporter := "u@example.org", description := "", status := Status.pending,
    language := "fa" }

/-- Witness for C6 at concrete inputs: the page fields are normalized by
the full pass subset, the report body only by the whitespace pass with
its single line break kept, and the submitted description by the full
subset. -/
theorem per_field_normalization_passes_witness :
    (pageSaveModel pDirty).title = "hi there، ۱۲"
    ∧ (pageSaveModel pDirty).pid = "PID_w"
    ∧ (reportAdminChange rDirty ⟨"d  1", Status.accepted⟩).1.body =
        "line one\nline two"
    ∧ (reportAdminChange rDirty ⟨"d  1", Status.accepted⟩).1.description =
        "d ۱"
    ∧ List.count '\n'
        (editorRun [EditorPass.space] false rDirty.body).data =
        List.count '\n' rDirty.body.data := by
  have h := per_field_normalization_passes pDirty rDirty
    ⟨"d  1", Status.accepted⟩
  refine ⟨h.1.trans (by decide), h.2.2.2.2.2.1, ?_, ?_, ?_⟩
  · exact (h.2.2.2.2.2.2.1).trans (by decide)
  · exact (h.2.2.2.2.2.2.2.1 (by decide) (by decide)).trans (by decide)
  · exact h.2.2.2.2.2.2.2.2 rDirty.body

end Laum
